import Mathlib

/-!
Verification development for the "blank" templating system (src/blank.js).
The definitions below are a shallow embedding of the source: JavaScript
objects become association lists in key-iteration order, the file system an
abstract read-only map, machine strings Lean strings, and the transpiler's
scanning loop a fuel-indexed structural recursion (the fuel equals the
remaining input length bound, which the strictly advancing loop index never
exhausts).
-/

namespace Blank

/-- JavaScript values as far as the blank pipeline inspects them: the
pipeline only ever asks whether a value is a function, so functions are
identified by an opaque tag and everything else is carried as data. -/
inductive JSValue where
  | func (tag : String)
  | str (s : String)
  | num (n : Int)
deriving DecidableEq, Repr

/-- A JavaScript object as blank uses one: an association list of string
keys in key-iteration order (for string keys, insertion order). -/
abbrev JSObj := List (String × JSValue)

/-- JavaScript property read `o[k]`: the value at the (unique) matching key. -/
def objGet {α : Type} (o : List (String × α)) (k : String) : Option α :=
  match o with
  | [] => none
  | p :: rest => if p.1 = k then some p.2 else objGet rest k

/-- JavaScript `k in o`. -/
def objHasKey {α : Type} (o : List (String × α)) (k : String) : Bool :=
  match o with
  | [] => false
  | p :: rest => if p.1 = k then true else objHasKey rest k

/-- One key-value step of `Object.assign`: an existing key keeps its position
and takes the new value, a new key is appended at the end. -/
def assignPair {α : Type} (o : List (String × α)) (kv : String × α) : List (String × α) :=
  if objHasKey o kv.1 then o.map (fun p => if p.1 = kv.1 then (p.1, kv.2) else p)
  else o ++ [kv]

/-- `Object.assign(o, src)`: fold the source's entries into `o`. -/
def objAssign {α : Type} (o src : List (String × α)) : List (String × α) :=
  src.foldl assignPair o

/-- The merged context built by the injected include capability
(src/blank.js lines 68-73 and 132-137): a fresh object, `Object.assign`
from the parent dict, then `Object.assign` from the override context when
one was supplied. The `dict` assigned from is the caller-supplied parent
dict — the closure captured `dict` itself, not the injected namespace. -/
def mergedDict (dict : JSObj) (dict2 : Option JSObj) : JSObj :=
  let m := objAssign ([] : JSObj) dict
  match dict2 with
  | none => m
  | some d2 => objAssign m d2

/-- The parent's full post-injection capability set (caller entries followed
by the injected require and include closures when absent), written out as an
object. This is what the spec's words say the include merge copies; the
injected closures are stood for by tagged function values. -/
def postInjectionCtx (dict : JSObj) : JSObj :=
  (dict ++ (if objHasKey dict "require" then [] else [("require", JSValue.func "require")]))
    ++ (if objHasKey dict "include" then [] else [("include", JSValue.func "include")])

/-- Modelled from the spec's words for claim C2 (refinement comparison):
merged context = shallow copy of the parent's full post-injection context,
then shallow-overwritten key-by-key by the override context. -/
def mergedPerClaim (dict : JSObj) (dict2 : Option JSObj) : JSObj :=
  let m := objAssign ([] : JSObj) (postInjectionCtx dict)
  match dict2 with
  | none => m
  | some d2 => objAssign m d2

/-- `path.posix.isAbsolute`: nonempty and starting with a slash. -/
def posixIsAbsolute (p : String) : Bool :=
  match p.data with
  | [] => false
  | c :: _ => c = '/'

/-- `path.posix.dirname`, following Node's algorithm: ignore trailing
slashes, cut at the separator before the final name, keep a root slash. -/
def posixDirname (p : String) : String :=
  match p.data with
  | [] => "."
  | c0 :: rest =>
    let hasRoot := c0 = '/'
    let r1 := rest.reverse.dropWhile (fun c => c = '/')
    let r2 := r1.dropWhile (fun c => c ≠ '/')
    match r2 with
    | [] => if hasRoot then "/" else "."
    | _ :: r3 =>
      if hasRoot ∧ r3 = [] then "//"
      else String.mk (c0 :: rest.take r3.length)

/-- Target-path resolution of the injected include capability
(src/blank.js lines 64-67 and 128-131): a relative target is prefixed with
the including file's directory, an absolute one is used unchanged. -/
def resolveIncludePath (dirname target : String) : String :=
  if posixIsAbsolute target then target else dirname ++ "/" ++ target

/-- `typeof v === "function"`. -/
def isFunctionV : JSValue → Bool
  | JSValue.func _ => true
  | _ => false

/-- The write-capability check both entry points perform first
(src/blank.js lines 31-33 and 94-96): the dict must bind key `write` to a
function. -/
def checkWrite (dict : JSObj) : Bool :=
  match objGet dict "write" with
  | some v => isFunctionV v
  | none => false

/-- The message both entry points fail with when `write` is missing. -/
def ctxErrMsg : String := "dict must be an object including a 'write' function."

/-- The options argument of includeSync: optional delimiter overrides. -/
structure ScanOptions where
  startDelim : Option String
  endDelim : Option String
deriving Repr

/-- Delimiter selection of includeSync (src/blank.js lines 36-39): defaults,
overridden by the corresponding option field when present. -/
def effectiveDelims (options : Option ScanOptions) : String × String :=
  let sd := match options with
    | some o => match o.startDelim with
      | some s => s
      | none => "%\x7b"
    | none => "%\x7b"
  let ed := match options with
    | some o => match o.endDelim with
      | some s => s
      | none => "\x7d%"
    | none => "\x7d%"
  (sd, ed)

/-- The characters of the literal substring `include(` that the suspension
rewrite looks for (src/blank.js line 181). -/
def includePat : List Char := "include(".data

/-- Escaping of one WRITE-state character (src/blank.js lines 170-178):
carriage return becomes an escaped carriage-return sequence, newline an
escaped newline followed by a line continuation (a backslash and an actual
line break), backslash and quote are backslash-escaped, everything else
passes through unchanged. -/
def escCharL (c : Char) : List Char :=
  if c = '\r' then ['\\', 'r']
  else if c = '\n' then ['\\', 'n', '\\', '\n']
  else if c = '\\' ∨ c = '\'' then ['\\', c]
  else [c]

/-- The end-of-input error thrown by makeRun (src/blank.js line 193). The
`path` interpolated there is the required path module object — makeRun never
receives the template's file path — and JavaScript string concatenation
stringifies that object to "[object Object]", so the message is one constant
independent of the file being processed. -/
def unpairedMsg : String := "File '[object Object]' has an un-paired %\x7b"

/-- Marker for fuel exhaustion of the fuel-indexed scanner; unreachable
whenever the fuel is at least the remaining input length (claim C10). -/
def fuelMsg : String := "scan fuel exhausted"

/-- The scanning loop of makeRun (src/blank.js lines 164-192). `inWrite` is
the WRITE/CODE state; the result is the generated source from the current
position on (the caller prepends the opening of the first write call).
Delimiter recognition compares a two-character window `substr(i,2)` against
the delimiter string, and a window of eight against `include(`, exactly as
the source does; a match advances two (respectively eight) positions. The
fuel makes the recursion structural: each iteration consumes at least one
input character. -/
def scanFuel (asyncMode : Bool) (sd ed : List Char) : Nat → Bool → List Char → Except String String
  | _, true, [] => Except.ok "');"
  | _, false, [] => Except.error unpairedMsg
  | 0, _, _ :: _ => Except.error fuelMsg
  | fuel + 1, true, c :: rest =>
    if List.take 2 (c :: rest) = sd then
      Except.map (fun s => "');" ++ s) (scanFuel asyncMode sd ed fuel false (List.drop 2 (c :: rest)))
    else
      Except.map (fun s => String.mk (escCharL c) ++ s) (scanFuel asyncMode sd ed fuel true rest)
  | fuel + 1, false, c :: rest =>
    if asyncMode = true ∧ List.take 8 (c :: rest) = includePat then
      Except.map (fun s => "await include(" ++ s) (scanFuel asyncMode sd ed fuel false (List.drop 8 (c :: rest)))
    else if List.take 2 (c :: rest) = ed then
      Except.map (fun s => "write('" ++ s) (scanFuel asyncMode sd ed fuel true (List.drop 2 (c :: rest)))
    else
      Except.map (fun s => String.singleton c ++ s) (scanFuel asyncMode sd ed fuel false rest)

/-- makeRun (src/blank.js lines 160-196): transpile a template into the
generated procedure source, or fail when the input ends inside a code
section. -/
def makeRun (template : String) (asyncMode : Bool) (sd ed : String) : Except String String :=
  Except.map (fun s => "'use strict'; write('" ++ s)
    (scanFuel asyncMode sd.data ed.data template.data.length true template.data)

/-- Decidable equality on run results, so concrete runs can be settled by
`decide`. -/
instance decEqExcept {ε α : Type} [DecidableEq ε] [DecidableEq α] :
    DecidableEq (Except ε α) := fun a b =>
  match a, b with
  | Except.ok x, Except.ok y =>
    if h : x = y then Decidable.isTrue (by rw [h])
    else Decidable.isFalse (fun hh => h (Except.ok.inj hh))
  | Except.ok _, Except.error _ => Decidable.isFalse (fun hh => Except.noConfusion hh)
  | Except.error _, Except.ok _ => Decidable.isFalse (fun hh => Except.noConfusion hh)
  | Except.error x, Except.error y =>
    if h : x = y then Decidable.isTrue (by rw [h])
    else Decidable.isFalse (fun hh => h (Except.error.inj hh))

/-- The error taxonomy of one run, as the spec's section 7 names it. -/
inductive RunError where
  | contextError (msg : String)
  | fileError (filepath : String)
  | transpileError (msg : String)
  | runtimeError (msg : String)
deriving DecidableEq, Repr

/-- The blocking entry point includeSync (src/blank.js lines 30-40), modelled
through the transpile stage in order: the write-capability check, the
synchronous read against an abstract read-only file store `fs`, delimiter
selection from the options, then makeRun in blocking mode. The
construct-and-invoke tail (lines 43-79) runs dynamically generated
JavaScript and is outside the embedding; on success the model returns the
compiled source that tail would execute. -/
def includeSyncModel (fs : String → Option String) (filepath : String) (dict : JSObj)
    (options : Option ScanOptions) : Except RunError String :=
  if checkWrite dict = false then Except.error (RunError.contextError ctxErrMsg)
  else
    match fs filepath with
    | none => Except.error (RunError.fileError filepath)
    | some template =>
      match makeRun template false (effectiveDelims options).1 (effectiveDelims options).2 with
      | Except.error m => Except.error (RunError.transpileError m)
      | Except.ok run => Except.ok run

/-- The try body of the suspending entry point include (src/blank.js lines
93-152): the write-capability check, the asynchronous file read, makeRun in
suspension mode with the fixed default delimiters, then invocation of the
constructed async procedure. Running that generated JavaScript — including
nested includes, whose promise rejections the awaits rethrow into this body —
is outside the embedding, so its outcome is the oracle `exec` applied to the
compiled source. -/
def includeAsyncBody (fs : String → Option String) (filepath : String) (dict : JSObj)
    (exec : String → Except RunError Unit) : Except RunError Unit :=
  if checkWrite dict = false then Except.error (RunError.contextError ctxErrMsg)
  else
    match fs filepath with
    | none => Except.error (RunError.fileError filepath)
    | some template =>
      match makeRun template true "%\x7b" "\x7d%" with
      | Except.error m => Except.error (RunError.transpileError m)
      | Except.ok run => exec run

/-- The callback discipline of include (src/blank.js lines 153-157): any
error thrown in the try body reaches the catch clause, which invokes the
callback with the error and returns; otherwise control falls through to the
single success invocation with no argument. The list records every callback
invocation of one run, in order. -/
def includeAsyncCallbacks (fs : String → Option String) (filepath : String) (dict : JSObj)
    (exec : String → Except RunError Unit) : List (Option RunError) :=
  match includeAsyncBody fs filepath dict exec with
  | Except.error e => [some e]
  | Except.ok _ => [none]

/-- The namespace construction shared by both entry points (src/blank.js
lines 43-76 and 106-148): parameter names and argument values taken from
every dict key in iteration order, then a `require` name bound to the
injected module-loader closure when the dict lacks one, then an `include`
name bound to the injected recursive-include closure when the dict lacks
one. `reqV` and `incV` stand for the two injected closures. The generated
source is pushed after these names and is the constructed procedure's body,
not a parameter, so it is not part of the lists here. -/
def buildNamespace {α : Type} (dict : List (String × α)) (reqV incV : α) :
    List String × List α :=
  let ns0 := dict.map (fun p => p.1)
  let vs0 := dict.map (fun p => p.2)
  let nv1 := if objHasKey dict "require" then (ns0, vs0) else (ns0 ++ ["require"], vs0 ++ [reqV])
  let nv2 := if objHasKey dict "include" then nv1 else (nv1.1 ++ ["include"], nv1.2 ++ [incV])
  nv2

/-- The environment a constructed procedure runs under when `func.apply`
binds the argument values to the parameter names positionally
(src/blank.js lines 78-79 and 151-152). -/
def invokeBinding {α : Type} (ns : List String) (vs : List α) : List (String × α) :=
  ns.zip vs

/-- Evaluation of the body of a JavaScript single-quoted string literal, for
the escape sequences makeRun emits: `\r` and `\n` escapes, a
backslash-newline line continuation (which vanishes), a backslash before any
other character yielding that character, and every other character standing
for itself. -/
def jsEvalL : List Char → List Char
  | [] => []
  | [c] => [c]
  | c :: c2 :: rest =>
    if c = '\\' then
      if c2 = 'r' then '\r' :: jsEvalL rest
      else if c2 = 'n' then '\n' :: jsEvalL rest
      else if c2 = '\n' then jsEvalL rest
      else c2 :: jsEvalL rest
    else c :: jsEvalL (c2 :: rest)

/-- escCharL applied across a whole literal span. -/
def escapeLitL : List Char → List Char
  | [] => []
  | c :: rest => escCharL c ++ escapeLitL rest

/-- Whether the blocking scan of makeRun never stands on an occurrence of
`include(` while in CODE state: the operational reading of "the template's
code sections contain no occurrence of the substring include(". The
traversal mirrors scanFuel's blocking branches. -/
def syncScanAvoidsInclude (sd ed : List Char) : Nat → Bool → List Char → Bool
  | _, _, [] => true
  | 0, _, _ :: _ => true
  | fuel + 1, true, c :: rest =>
    if List.take 2 (c :: rest) = sd then
      syncScanAvoidsInclude sd ed fuel false (List.drop 2 (c :: rest))
    else
      syncScanAvoidsInclude sd ed fuel true rest
  | fuel + 1, false, c :: rest =>
    if List.take 8 (c :: rest) = includePat then false
    else if List.take 2 (c :: rest) = ed then
      syncScanAvoidsInclude sd ed fuel true (List.drop 2 (c :: rest))
    else
      syncScanAvoidsInclude sd ed fuel false rest

/-! Object lemmas: how Object.assign composes with property reads. -/

theorem objGet_map_update {α : Type} (kv : String × α) (k : String) (h : ¬ k = kv.1) :
    ∀ o : List (String × α),
      objGet (o.map (fun p => if p.1 = kv.1 then (p.1, kv.2) else p)) k = objGet o k := by
  intro o
  induction o with
  | nil => rfl
  | cons q o ih =>
    by_cases hq : q.1 = kv.1
    · have hk2 : ¬ kv.1 = k := fun hh => h hh.symm
      simp [objGet, hq, hk2, ih]
    · simp only [List.map_cons, if_neg hq, objGet, ih]

theorem objGet_map_update_self {α : Type} (kv : String × α) :
    ∀ o : List (String × α), objHasKey o kv.1 = true →
      objGet (o.map (fun p => if p.1 = kv.1 then (p.1, kv.2) else p)) kv.1 = some kv.2 := by
  intro o
  induction o with
  | nil => intro h; exact absurd h (by simp [objHasKey])
  | cons q o ih =>
    intro h
    by_cases hq : q.1 = kv.1
    · simp [objGet, hq]
    · have h2 : objHasKey o kv.1 = true := by simpa [objHasKey, hq] using h
      simp [objGet, hq, ih h2]

theorem objGet_append {α : Type} (k : String) :
    ∀ o o' : List (String × α), objGet (o ++ o') k = (objGet o k).or (objGet o' k) := by
  intro o o'
  induction o with
  | nil => simp [objGet]
  | cons q o ih =>
    by_cases hq : q.1 = k <;> simp [objGet, hq, ih]

theorem objGet_none_of_hasKey_false {α : Type} (k : String) :
    ∀ o : List (String × α), objHasKey o k = false → objGet o k = none := by
  intro o
  induction o with
  | nil => intro _; rfl
  | cons q o ih =>
    intro h
    by_cases hq : q.1 = k
    · exact absurd h (by simp [objHasKey, hq])
    · have h2 : objHasKey o k = false := by simpa [objHasKey, hq] using h
      simp [objGet, hq, ih h2]

theorem objGet_none_of_not_mem {α : Type} (k : String) :
    ∀ o : List (String × α), k ∉ o.map Prod.fst → objGet o k = none := by
  intro o
  induction o with
  | nil => intro _; rfl
  | cons q o ih =>
    intro h
    have hq : ¬ q.1 = k := fun hh => h (by simp [hh])
    have h2 : k ∉ o.map Prod.fst := fun hh => h (by simp [hh])
    simp [objGet, hq, ih h2]

theorem objGet_assignPair {α : Type} (o : List (String × α)) (kv : String × α) (k : String) :
    objGet (assignPair o kv) k = if k = kv.1 then some kv.2 else objGet o k := by
  unfold assignPair
  by_cases hmem : objHasKey o kv.1 = true
  · rw [if_pos hmem]
    by_cases hk : k = kv.1
    · subst hk; rw [if_pos rfl]; exact objGet_map_update_self kv o hmem
    · rw [if_neg hk]; exact objGet_map_update kv k hk o
  · rw [if_neg hmem]
    rw [objGet_append]
    have hfalse : objHasKey o kv.1 = false := by simpa using hmem
    by_cases hk : k = kv.1
    · subst hk
      rw [objGet_none_of_hasKey_false kv.1 o hfalse]
      simp [objGet]
    · rw [if_neg hk]
      simp [objGet, show ¬ kv.1 = k from fun hh => hk hh.symm, Option.or_none]

theorem objGet_objAssign {α : Type} (k : String) :
    ∀ (src o : List (String × α)), (src.map Prod.fst).Nodup →
      objGet (objAssign o src) k = (objGet src k).or (objGet o k) := by
  intro src
  induction src with
  | nil => intro o _; simp [objAssign, objGet]
  | cons kv tl ih =>
    intro o hnd
    rw [List.map_cons, List.nodup_cons] at hnd
    obtain ⟨hni, hnd'⟩ := hnd
    show objGet (List.foldl assignPair (assignPair o kv) tl) k = _
    rw [show List.foldl assignPair (assignPair o kv) tl = objAssign (assignPair o kv) tl from rfl]
    rw [ih (assignPair o kv) hnd', objGet_assignPair]
    by_cases hk : k = kv.1
    · subst hk
      rw [objGet_none_of_not_mem kv.1 tl hni]
      simp [objGet]
    · simp [objGet, show ¬ kv.1 = k from fun hh => hk hh.symm, hk]

/-! Scanner lemmas: the loop index advances strictly, so any fuel at least
the remaining input length gives the same scan result. -/

theorem scanFuel_fuel_irrel (asyncMode : Bool) (sd ed : List Char) :
    ∀ (n : Nat) (rest : List Char), rest.length ≤ n →
      ∀ (f f' : Nat) (w : Bool), rest.length ≤ f → rest.length ≤ f' →
        scanFuel asyncMode sd ed f w rest = scanFuel asyncMode sd ed f' w rest := by
  intro n
  induction n with
  | zero =>
    intro rest hn f f' w _ _
    have : rest = [] := List.eq_nil_of_length_eq_zero (Nat.le_zero.mp hn)
    subst this
    cases w <;> simp [scanFuel]
  | succ n ih =>
    intro rest hn f f' w hf hf'
    match rest with
    | [] => cases w <;> simp [scanFuel]
    | c :: tl =>
      have htl : tl.length ≤ n := by simp at hn; omega
      have hfa1 : 1 ≤ f := by simp at hf; omega
      have hfb1 : 1 ≤ f' := by simp at hf'; omega
      obtain ⟨fa, rfl⟩ : ∃ fa, f = fa + 1 := ⟨f - 1, by omega⟩
      obtain ⟨fb, rfl⟩ : ∃ fb, f' = fb + 1 := ⟨f' - 1, by omega⟩
      have hfa : tl.length ≤ fa := by simp at hf; omega
      have hfb : tl.length ≤ fb := by simp at hf'; omega
      cases w with
      | true =>
        simp only [scanFuel]
        by_cases h2 : List.take 2 (c :: tl) = sd
        · rw [if_pos h2, if_pos h2]
          exact congrArg _ (ih (List.drop 2 (c :: tl)) (by simp; omega) fa fb false
            (by simp; omega) (by simp; omega))
        · rw [if_neg h2, if_neg h2]
          exact congrArg _ (ih tl htl fa fb true hfa hfb)
      | false =>
        simp only [scanFuel]
        by_cases h8 : asyncMode = true ∧ List.take 8 (c :: tl) = includePat
        · rw [if_pos h8, if_pos h8]
          exact congrArg _ (ih (List.drop 8 (c :: tl)) (by simp; omega) fa fb false
            (by simp; omega) (by simp; omega))
        · rw [if_neg h8, if_neg h8]
          by_cases h2 : List.take 2 (c :: tl) = ed
          · rw [if_pos h2, if_pos h2]
            exact congrArg _ (ih (List.drop 2 (c :: tl)) (by simp; omega) fa fb true
              (by simp; omega) (by simp; omega))
          · rw [if_neg h2, if_neg h2]
            exact congrArg _ (ih tl htl fa fb false hfa hfb)

/-- When the blocking scan never stands on `include(` in CODE state, the
suspension-mode scan takes exactly the same branches: outputs agree. -/
theorem scanFuel_sync_of_avoids (sd ed : List Char) :
    ∀ (fuel : Nat) (w : Bool) (rest : List Char),
      syncScanAvoidsInclude sd ed fuel w rest = true →
      scanFuel true sd ed fuel w rest = scanFuel false sd ed fuel w rest := by
  intro fuel
  induction fuel with
  | zero =>
    intro w rest _
    match rest with
    | [] => cases w <;> simp [scanFuel]
    | c :: tl => simp [scanFuel]
  | succ f ih =>
    intro w rest h
    match rest with
    | [] => cases w <;> simp [scanFuel]
    | c :: tl =>
      cases w with
      | true =>
        simp only [syncScanAvoidsInclude] at h
        simp only [scanFuel]
        by_cases h2 : List.take 2 (c :: tl) = sd
        · rw [if_pos h2] at h
          rw [if_pos h2, if_pos h2]
          exact congrArg _ (ih false _ h)
        · rw [if_neg h2] at h
          rw [if_neg h2, if_neg h2]
          exact congrArg _ (ih true _ h)
      | false =>
        simp only [syncScanAvoidsInclude] at h
        simp only [scanFuel]
        by_cases h8 : List.take 8 (c :: tl) = includePat
        · rw [if_pos h8] at h
          exact absurd h (by simp)
        · rw [if_neg h8] at h
          rw [if_neg (fun hc : True ∧ List.take 8 (c :: tl) = includePat => h8 hc.2),
            if_neg (fun hc : false = true ∧ List.take 8 (c :: tl) = includePat => h8 hc.2)]
          by_cases h2 : List.take 2 (c :: tl) = ed
          · rw [if_pos h2] at h
            rw [if_pos h2, if_pos h2]
            exact congrArg _ (ih true _ h)
          · rw [if_neg h2] at h
            rw [if_neg h2, if_neg h2]
            exact congrArg _ (ih false _ h)

/-! Escaping lemmas: the JavaScript string-literal reading of the scanner's
escapes recovers the original literal span. -/

theorem jsEvalL_cons_ne (c : Char) (h : ¬ c = '\\') (l : List Char) :
    jsEvalL (c :: l) = c :: jsEvalL l := by
  cases l <;> simp [jsEvalL, h]

theorem jsEvalL_escapeLitL : ∀ s : List Char, jsEvalL (escapeLitL s) = s := by
  intro s
  induction s with
  | nil => rfl
  | cons c tl ih =>
    simp only [escapeLitL]
    by_cases h1 : c = '\r'
    · subst h1
      rw [show escCharL '\r' = ['\\', 'r'] from rfl]
      simp only [List.cons_append, List.nil_append]
      rw [show ∀ l, jsEvalL ('\\' :: 'r' :: l) = '\r' :: jsEvalL l from fun l => by simp [jsEvalL],
        ih]
    · by_cases h2 : c = '\n'
      · subst h2
        rw [show escCharL '\n' = ['\\', 'n', '\\', '\n'] from rfl]
        simp only [List.cons_append, List.nil_append]
        rw [show ∀ l, jsEvalL ('\\' :: 'n' :: l) = '\n' :: jsEvalL l from fun l => by
            simp [jsEvalL],
          show ∀ l, jsEvalL ('\\' :: '\n' :: l) = jsEvalL l from fun l => by simp [jsEvalL], ih]
      · by_cases h3 : c = '\\' ∨ c = '\''
        · have he : escCharL c = ['\\', c] := by simp [escCharL, h1, h2, h3]
          have hcr : ¬ c = 'r' := by rcases h3 with h | h <;> subst h <;> decide
          have hcn : ¬ c = 'n' := by rcases h3 with h | h <;> subst h <;> decide
          rw [he]
          simp only [List.cons_append, List.nil_append]
          rw [show ∀ l, jsEvalL ('\\' :: c :: l) = c :: jsEvalL l from fun l => by
              simp [jsEvalL, hcr, hcn, h2],
            ih]
        · have he : escCharL c = [c] := by simp [escCharL, h1, h2, h3]
          have hcb : ¬ c = '\\' := fun hh => h3 (Or.inl hh)
          rw [he]
          simp only [List.cons_append, List.nil_append]
          rw [jsEvalL_cons_ne c hcb, ih]

/-! The claims. -/

/-- Claim C1, evaluated at a failing input (code_bug): a template ending in
CODE state makes makeRun throw, but the thrown message is the one constant
`unpairedMsg` — "File '[object Object]' has an un-paired %{" — for every
template, because the source's line 193 interpolates the required `path`
module object rather than the processed file's path, which makeRun never
receives. The claim's (and spec's) requirement that the error name the
source file being processed is therefore not met. A template ending in WRITE
state raises no error and the final write call is closed, as the claim
states. -/
theorem claim_C1_unterminated_message :
    makeRun "abc %\x7b write(1);" false "%\x7b" "\x7d%" = Except.error unpairedMsg
    ∧ makeRun "x%\x7by" false "%\x7b" "\x7d%" = Except.error unpairedMsg
    ∧ unpairedMsg = "File '[object Object]' has an un-paired %\x7b"
    ∧ makeRun "abc" false "%\x7b" "\x7d%" = Except.ok "'use strict'; write('abc');" :=
  ⟨rfl, rfl, rfl, rfl⟩

/-- Claim C2 counterexample: the context handed to a nested include is the
merge of the parent's caller-supplied dict, not of its post-injection
context. With parent context carrying only `write` and an explicit empty
override, the code's merged context has no `include` key at all, while the
claim's merged context (modelled by mergedPerClaim) contains the injected
`include` and `require` capabilities. -/
theorem claim_C2_counterexample :
    mergedDict [("write", JSValue.func "write")] (some []) ≠
        mergedPerClaim [("write", JSValue.func "write")] (some [])
      ∧ objHasKey (mergedDict [("write", JSValue.func "write")] (some [])) "include" = false
      ∧ objHasKey (mergedPerClaim [("write", JSValue.func "write")] (some [])) "include" = true :=
  ⟨by decide, by decide, by decide⟩

/-- Claim C2 as amended: the nested context is a shallow copy of the
parent's caller-supplied context (the auto-injected require/include
capabilities are not part of it; the nested run re-injects its own),
shallow-overwritten key-by-key by the override context, child values winning
on every key collision; parent {write, a:1, b:2} with override {b:3, c:4}
yields {write, a:1, b:3, c:4}, and a key absent from both parent dict and
override — such as an injected capability's name — is absent from the merged
context. -/
theorem claim_C2_shallow_merge :
    (∀ (dict dict2 : JSObj), (dict.map Prod.fst).Nodup → (dict2.map Prod.fst).Nodup →
      ∀ k, objGet (mergedDict dict (some dict2)) k = (objGet dict2 k).or (objGet dict k))
    ∧ mergedDict [("write", JSValue.func "write"), ("a", JSValue.num 1), ("b", JSValue.num 2)]
        (some [("b", JSValue.num 3), ("c", JSValue.num 4)]) =
        [("write", JSValue.func "write"), ("a", JSValue.num 1), ("b", JSValue.num 3),
          ("c", JSValue.num 4)]
    ∧ (∀ (dict dict2 : JSObj), (dict.map Prod.fst).Nodup → (dict2.map Prod.fst).Nodup →
        objHasKey dict "include" = false → objHasKey dict2 "include" = false →
        objGet (mergedDict dict (some dict2)) "include" = none) := by
  have hmain : ∀ (dict dict2 : JSObj), (dict.map Prod.fst).Nodup → (dict2.map Prod.fst).Nodup →
      ∀ k, objGet (mergedDict dict (some dict2)) k = (objGet dict2 k).or (objGet dict k) := by
    intro dict dict2 h1 h2 k
    show objGet (objAssign (objAssign [] dict) dict2) k = _
    rw [objGet_objAssign k dict2 _ h2, objGet_objAssign k dict _ h1]
    simp [objGet, Option.or_none]
  refine ⟨hmain, by decide, fun dict dict2 h1 h2 hd hd2 => ?_⟩
  rw [hmain dict dict2 h1 h2 "include", objGet_none_of_hasKey_false _ _ hd2,
    objGet_none_of_hasKey_false _ _ hd]
  rfl

theorem claim_C2_shallow_merge_witness :
    objGet (mergedDict [("write", JSValue.func "w"), ("b", JSValue.num 2)]
        (some [("b", JSValue.num 3)])) "b" =
      (objGet [("b", JSValue.num 3)] "b").or
        (objGet [("write", JSValue.func "w"), ("b", JSValue.num 2)] "b") :=
  claim_C2_shallow_merge.1 [("write", JSValue.func "w"), ("b", JSValue.num 2)]
    [("b", JSValue.num 3)] (by decide) (by decide) "b"

/-- Claim C3: the escaping rules of the WRITE state — backslash and quote
escaped, carriage return as an escaped carriage-return sequence, newline as
an escaped newline followed by a line-continuation backslash and an actual
line break, everything else verbatim — and the round trip: evaluating the
emitted escapes under JavaScript single-quoted string-literal semantics
reproduces the literal span byte-for-byte. The final conjunct checks the
write argument makeRun emits for a literal span holding all four special
characters. -/
theorem claim_C3_escape_roundtrip :
    escCharL '\\' = ['\\', '\\']
    ∧ escCharL '\'' = ['\\', '\'']
    ∧ escCharL '\r' = ['\\', 'r']
    ∧ escCharL '\n' = ['\\', 'n', '\\', '\n']
    ∧ (∀ c : Char, ¬(c = '\r' ∨ c = '\n' ∨ c = '\\' ∨ c = '\'') → escCharL c = [c])
    ∧ (∀ s : List Char, jsEvalL (escapeLitL s) = s)
    ∧ makeRun "a\\b'c\rd\ne" false "%\x7b" "\x7d%" =
        Except.ok ("'use strict'; write('" ++ String.mk (escapeLitL "a\\b'c\rd\ne".data) ++ "');") := by
  refine ⟨rfl, rfl, rfl, rfl, fun c hc => ?_, jsEvalL_escapeLitL, by decide⟩
  have h1 : ¬ c = '\r' := fun h => hc (Or.inl h)
  have h2 : ¬ c = '\n' := fun h => hc (Or.inr (Or.inl h))
  have h3 : ¬ (c = '\\' ∨ c = '\'') := fun h => hc (Or.inr (Or.inr h))
  simp [escCharL, h1, h2, h3]

theorem claim_C3_escape_roundtrip_witness : escCharL 'q' = ['q'] :=
  claim_C3_escape_roundtrip.2.2.2.2.1 'q' (by decide)

/-- Claim C4: one run of the suspending entry point invokes its completion
callback exactly once — with the error when the try body failed at any stage
(missing write, read failure, transpile failure, or a failure of the
executed template code including nested includes, all surfaced through the
body's result), and with no argument on success. -/
theorem claim_C4_callback_once :
    ∀ (fs : String → Option String) (fp : String) (dict : JSObj)
      (exec : String → Except RunError Unit),
      (includeAsyncCallbacks fs fp dict exec).length = 1
      ∧ (∀ e, includeAsyncBody fs fp dict exec = Except.error e →
          includeAsyncCallbacks fs fp dict exec = [some e])
      ∧ (includeAsyncBody fs fp dict exec = Except.ok () →
          includeAsyncCallbacks fs fp dict exec = [none]) := by
  intro fs fp dict exec
  refine ⟨?_, fun e he => ?_, fun hok => ?_⟩
  · unfold includeAsyncCallbacks
    cases includeAsyncBody fs fp dict exec <;> simp
  · unfold includeAsyncCallbacks
    rw [he]
  · unfold includeAsyncCallbacks
    rw [hok]

theorem claim_C4_callback_once_witness :
    includeAsyncCallbacks (fun _ => some "hi") "f._" [("write", JSValue.func "w")]
        (fun _ => Except.ok ()) = [none]
    ∧ includeAsyncCallbacks (fun _ => none) "f._" [("write", JSValue.func "w")]
        (fun _ => Except.ok ()) = [some (RunError.fileError "f._")] :=
  ⟨(claim_C4_callback_once (fun _ => some "hi") "f._" [("write", JSValue.func "w")]
      (fun _ => Except.ok ())).2.2 (by decide),
    (claim_C4_callback_once (fun _ => none) "f._" [("write", JSValue.func "w")]
      (fun _ => Except.ok ())).2.1 (RunError.fileError "f._") (by decide)⟩

/-- Claim C5: a caller context without a write function makes both entry
points fail with the context error before any file access — the result does
not depend on the file store at all — while a context holding a write
function passes the check and the file read proceeds (a missing file then
surfaces as the read failure). -/
theorem claim_C5_write_check :
    ∀ (fs fs' : String → Option String) (fp : String) (dict : JSObj)
      (options : Option ScanOptions) (exec : String → Except RunError Unit),
      (checkWrite dict = false →
        includeSyncModel fs fp dict options = Except.error (RunError.contextError ctxErrMsg)
        ∧ includeAsyncBody fs fp dict exec = Except.error (RunError.contextError ctxErrMsg)
        ∧ includeSyncModel fs fp dict options = includeSyncModel fs' fp dict options)
      ∧ (checkWrite dict = true → fs fp = none →
        includeSyncModel fs fp dict options = Except.error (RunError.fileError fp)
        ∧ includeAsyncBody fs fp dict exec = Except.error (RunError.fileError fp)) := by
  intro fs fs' fp dict options exec
  constructor
  · intro h
    refine ⟨?_, ?_, ?_⟩ <;> simp [includeSyncModel, includeAsyncBody, h]
  · intro h hn
    constructor <;> simp [includeSyncModel, includeAsyncBody, h, hn]

theorem claim_C5_write_check_witness :
    includeSyncModel (fun _ => some "t") "f._" [] none =
        Except.error (RunError.contextError ctxErrMsg)
    ∧ includeSyncModel (fun _ => none) "f._" [("write", JSValue.func "w")] none =
        Except.error (RunError.fileError "f._") :=
  ⟨((claim_C5_write_check (fun _ => some "t") (fun _ => none) "f._" [] none
      (fun _ => Except.ok ())).1 (by decide)).1,
    ((claim_C5_write_check (fun _ => none) (fun _ => some "t") "f._"
      [("write", JSValue.func "w")] none (fun _ => Except.ok ())).2 (by decide) rfl).1⟩

/-- Claim C6 counterexample: delimiter handling is not correct for every
supplied delimiter pair. The scanner compares a fixed two-character window
against the delimiter, so a three-character startDelim such as "%%{" is
never recognized: on the template consisting exactly of that delimiter (a
match at the first position), the scanner neither closes the write call nor
switches to CODE state — it emits the delimiter as literal text instead. -/
theorem claim_C6_counterexample :
    ¬ (∀ (sd ed : String) (fuel : Nat) (c : Char) (rest : List Char),
        List.take sd.length (c :: rest) = sd.data →
        scanFuel false sd.data ed.data (fuel + 1) true (c :: rest) =
          Except.map (fun s => "');" ++ s)
            (scanFuel false sd.data ed.data fuel false (List.drop sd.length (c :: rest)))) := by
  intro h
  have h2 := h "%%\x7b" "\x7d%" 2 '%' ['%', '\x7b'] (by decide)
  exact absurd h2 (by decide)

/-- Claim C6 as amended: for every pair of delimiter strings of length
exactly two supplied as options to the blocking entry point, the scanner in
WRITE state, on a match of startDelim, closes the open write call (appending
the closing quote, parenthesis and statement terminator), switches to CODE
state and advances past the whole delimiter; symmetrically in CODE state a
match of endDelim opens a new write call, switches to WRITE state and
advances past the whole delimiter. -/
theorem claim_C6_two_char_delims :
    ∀ (sd ed : String) (fuel : Nat) (c : Char) (rest : List Char),
      sd.length = 2 → ed.length = 2 →
      (List.take 2 (c :: rest) = sd.data →
        scanFuel false sd.data ed.data (fuel + 1) true (c :: rest) =
          Except.map (fun s => "');" ++ s)
            (scanFuel false sd.data ed.data fuel false (List.drop sd.length (c :: rest))))
      ∧ (List.take 2 (c :: rest) = ed.data →
        scanFuel false sd.data ed.data (fuel + 1) false (c :: rest) =
          Except.map (fun s => "write('" ++ s)
            (scanFuel false sd.data ed.data fuel true (List.drop ed.length (c :: rest)))) := by
  intro sd ed fuel c rest h1 h2
  constructor
  · intro hm
    simp only [scanFuel]
    rw [if_pos hm, h1]
  · intro hm
    simp only [scanFuel]
    rw [if_neg (fun hc : false = true ∧ List.take 8 (c :: rest) = includePat =>
        Bool.noConfusion hc.1),
      if_pos hm, h2]

theorem claim_C6_two_char_delims_witness :
    scanFuel false "%\x7b".data "\x7d%".data 3 true ['%', '\x7b', 'x'] =
      Except.map (fun s => "');" ++ s)
        (scanFuel false "%\x7b".data "\x7d%".data 2 false
          (List.drop "%\x7b".length ['%', '\x7b', 'x'])) :=
  (claim_C6_two_char_delims "%\x7b" "\x7d%" 2 '%' ['\x7b', 'x'] rfl rfl).1 (by decide)

/-- Claim C7: the injected include resolves a relative target against the
including file's directory and leaves an absolute target unchanged; from a
template at /dir/main._, "sub/x._" resolves to /dir/sub/x._ and "/abs/x._"
to /abs/x._. -/
theorem claim_C7_path_resolution :
    (∀ (dirname target : String), posixIsAbsolute target = true →
      resolveIncludePath dirname target = target)
    ∧ (∀ (dirname target : String), posixIsAbsolute target = false →
      resolveIncludePath dirname target = dirname ++ "/" ++ target)
    ∧ resolveIncludePath (posixDirname "/dir/main._") "sub/x._" = "/dir/sub/x._"
    ∧ resolveIncludePath (posixDirname "/dir/main._") "/abs/x._" = "/abs/x._" := by
  refine ⟨fun d t h => ?_, fun d t h => ?_, by decide, by decide⟩ <;>
    simp [resolveIncludePath, h]

theorem claim_C7_path_resolution_witness :
    resolveIncludePath "/dir" "/abs/x._" = "/abs/x._" :=
  claim_C7_path_resolution.1 "/dir" "/abs/x._" (by decide)

/-- Claim C8: the suspending transpilation differs from the blocking one
only by the suspension rewrite. In CODE state with suspensionMode set, an
occurrence of the literal substring include( is emitted with the await
marker prefixed and the scan advances past the matched substring; and
whenever the blocking scan never stands on include( in CODE state — in
particular for every template whose code sections contain no occurrence of
that substring — the two modes produce byte-identical compiled source. -/
theorem claim_C8_suspension_rewrite :
    (∀ (sd ed : List Char) (fuel : Nat) (c : Char) (rest : List Char),
        List.take 8 (c :: rest) = includePat →
        scanFuel true sd ed (fuel + 1) false (c :: rest) =
          Except.map (fun s => "await include(" ++ s)
            (scanFuel true sd ed fuel false (List.drop 8 (c :: rest))))
    ∧ (∀ (t sd ed : String),
        syncScanAvoidsInclude sd.data ed.data t.data.length true t.data = true →
        makeRun t true sd ed = makeRun t false sd ed) := by
  constructor
  · intro sd ed fuel c rest h
    simp [scanFuel, h]
  · intro t sd ed h
    unfold makeRun
    exact congrArg _ (scanFuel_sync_of_avoids sd.data ed.data t.data.length true t.data h)

theorem claim_C8_suspension_rewrite_witness :
    makeRun "include(" true "%\x7b" "\x7d%" = makeRun "include(" false "%\x7b" "\x7d%" :=
  claim_C8_suspension_rewrite.2 "include(" "%\x7b" "\x7d%" (by decide)

/-- Claim C9: the parameter-name list and the argument-value list built for
the constructed procedure have equal length and positional correspondence —
caller keys in their iteration order, then require if absent from the
caller's dict, then include if absent — and positional invocation binds each
name to the value at the same position: the resulting environment is the
caller's dict extended by the injected capabilities. -/
theorem claim_C9_namespace_order {α : Type} :
    ∀ (dict : List (String × α)) (reqV incV : α),
      (buildNamespace dict reqV incV).1.length = (buildNamespace dict reqV incV).2.length
      ∧ (buildNamespace dict reqV incV).1 =
          dict.map Prod.fst ++ (if objHasKey dict "require" then [] else ["require"])
            ++ (if objHasKey dict "include" then [] else ["include"])
      ∧ invokeBinding (buildNamespace dict reqV incV).1 (buildNamespace dict reqV incV).2 =
          dict ++ (if objHasKey dict "require" then [] else [("require", reqV)])
            ++ (if objHasKey dict "include" then [] else [("include", incV)]) := by
  intro dict reqV incV
  by_cases hr : objHasKey dict "require" = true <;>
    by_cases hi : objHasKey dict "include" = true <;>
      refine ⟨?_, ?_, ?_⟩ <;>
        simp [buildNamespace, invokeBinding, hr, hi, List.zip_append, List.zip_map']

/-- Claim C10: the scan terminates and never reads past the end of the
input. The first conjunct is the termination/progress statement: any fuel at
least the remaining input length — the loop index strictly advances — gives
the same result, so the scan is insensitive to the bound and never runs out.
The second states that a two-character delimiter is recognized only when it
fits entirely inside the remaining input (the substr window never fabricates
characters past the end). The third runs the claim's example: a lone '%' —
a partial startDelim prefix — at the final position in WRITE state is
emitted as an ordinary literal character. -/
theorem claim_C10_scan_safety :
    (∀ (asyncMode : Bool) (sd ed : List Char) (f f' : Nat) (w : Bool) (rest : List Char),
        rest.length ≤ f → rest.length ≤ f' →
        scanFuel asyncMode sd ed f w rest = scanFuel asyncMode sd ed f' w rest)
    ∧ (∀ (sd rest : List Char), sd.length = 2 →
        List.take 2 rest = sd → 2 ≤ rest.length)
    ∧ makeRun "a%" false "%\x7b" "\x7d%" = Except.ok "'use strict'; write('a%');" := by
  refine ⟨fun mode sd ed f f' w rest hf hf' =>
      scanFuel_fuel_irrel mode sd ed f rest hf f f' w hf hf',
    fun sd rest h2 ht => ?_, by decide⟩
  have hlen : (List.take 2 rest).length = sd.length := congrArg List.length ht
  rw [List.length_take, h2] at hlen
  rcases Nat.le_total 2 rest.length with h | h
  · exact h
  · rw [Nat.min_eq_right h] at hlen
    omega

theorem claim_C10_scan_safety_witness :
    scanFuel false "%\x7b".data "\x7d%".data 5 true "ab".data =
      scanFuel false "%\x7b".data "\x7d%".data 9 true "ab".data
    ∧ 2 ≤ ("%\x7bcd".data).length :=
  ⟨claim_C10_scan_safety.1 false "%\x7b".data "\x7d%".data 5 9 true "ab".data
      (by decide) (by decide),
    claim_C10_scan_safety.2.1 "%\x7b".data "%\x7bcd".data (by decide) (by decide)⟩

end Blank
